import Mathlib

/-!
Verification of `training/convert_labels_to_records.py`.

This file gives a shallow embedding of the pure content of the conversion
pipeline: annotation discovery filtering, the train/eval split, the label
vocabulary builder, the shard partitioner, the record encoder, the shard
writer and the top-level orchestration, together with theorems about them.

External collaborators (the bounding-box reader `bbox_writer.read_rects`,
PIL image decoding, `os.walk`) are modelled as parameters: an
`AnnotationStore` supplies, per annotation file path, the box list, the
class-name list and the paired image's dimensions; the result of `os.walk`
is passed in as a list of `(root, dirs, files)` triples; the in-place
`random.shuffle` is passed in as a list-to-list function.

Python `float` arithmetic (the eval fraction, box coordinates) is embedded
as `ℚ`; Python `int` as `ℤ`/`ℕ`; a Python `dict` built by enumeration as an
association list in construction order; `collections.Counter` as
`Multiset String`; an exception (`KeyError` from `labels[cls]`, an encoding
failure inside a worker) as `Option`/`Except`.
-/

open scoped List

namespace ConvertRecords

/-- A bounding box as returned by `bbox_writer.read_rects`: pixel-space
coordinates in the order `[xmin, ymin, xmax, ymax]` (`rect[0]..rect[3]`). -/
abbrev Rect : Type := ℚ × ℚ × ℚ × ℚ

/-- External collaborators of the script, per annotation file path:
`read_rects` is `bbox_writer.read_rects` (box list and parallel class-name
list), `img_path` is the image-path resolution of the first lines of
`create_tf_example` (first-line marker heuristic, involves the filesystem),
`img_ok` tells whether `Image.open`/`im.save` succeed on the resolved image
(`false` models the IOError / corrupt-image exception escaping
`create_tf_example`), and `img_width`/`img_height`/`img_channels` are the
PIL image attributes of the resolved image. -/
structure AnnotationStore where
  read_rects : String → List Rect × List String
  img_path : String → String
  img_ok : String → Bool
  img_width : String → ℤ
  img_height : String → ℤ
  img_channels : String → ℕ

/-- The fields of the `tf.train.Example` built by `create_tf_example` that
carry annotation content (the encoded image bytes, colorspace and format
tags are opaque payloads produced by external collaborators and are not
modelled). `classes_txt` keeps the class names (utf-8 encoding is the
identity at this level of modelling). -/
structure TFExample where
  height : ℤ
  width : ℤ
  channels : ℕ
  filename : String
  xmins : List ℚ
  xmaxs : List ℚ
  ymins : List ℚ
  ymaxs : List ℚ
  classes_txt : List String
  class_ids : List ℕ
deriving DecidableEq

/-- The lookups `[labels[cls] for cls in classes]` of `create_tf_example`:
`none` models the `KeyError` raised when some class name is absent from the
label dictionary. -/
def lookup_all (labels : List (String × ℕ)) : List String → Option (List ℕ)
  | [] => some []
  | c :: rest =>
    match List.lookup c labels with
    | none => none
    | some i =>
      match lookup_all labels rest with
      | none => none
      | some is => some (i :: is)

/-- Embedding of `create_tf_example(labels, txt_full_path)`: reads boxes and
classes through the store, normalizes each coordinate by width (x) or height
(y) and clamps it into `[0, 1]` with `max(min(·, 1), 0)`, looks every class
name up in `labels`, and returns the example together with
`collections.Counter(classes)` (a multiset) and `is_negative = (len(rects) == 0)`.
`none` models an uncaught exception: opening/decoding the paired image fails
(`img_ok` is false) or `KeyError` on a class name missing from `labels`. -/
def create_tf_example (store : AnnotationStore) (labels : List (String × ℕ))
    (txt_full_path : String) : Option (TFExample × Multiset String × Bool) :=
  let rects := (store.read_rects txt_full_path).1
  let classes := (store.read_rects txt_full_path).2
  let image_full_path := store.img_path txt_full_path
  if !(store.img_ok image_full_path) then none else
  let width : ℚ := (store.img_width image_full_path : ℚ)
  let height : ℚ := (store.img_height image_full_path : ℚ)
  let xmins := rects.map (fun rect => max (min (rect.1 / width) 1) 0)
  let xmaxs := rects.map (fun rect => max (min (rect.2.2.1 / width) 1) 0)
  let ymins := rects.map (fun rect => max (min (rect.2.1 / height) 1) 0)
  let ymaxs := rects.map (fun rect => max (min (rect.2.2.2 / height) 1) 0)
  match lookup_all labels classes with
  | none => none
  | some class_ids =>
    some (⟨store.img_height image_full_path, store.img_width image_full_path,
           store.img_channels image_full_path, image_full_path,
           xmins, xmaxs, ymins, ymaxs, classes, class_ids⟩,
          (classes : Multiset String),
          rects.length == 0)

/-- The `RecordWritingResult` named tuple. -/
structure Result where
  id : String
  record_count : ℕ
  class_count : Multiset String
  negative_count : ℕ
deriving DecidableEq

/-- The loop body of `write_record_from_list`: iterate the file list in
order, encode each file, append the serialized example to the output file
(`written`), and accumulate `examples_count` and `negative_count`. An
encoding failure aborts the loop immediately (`Except.error` carries the
failing file), leaving the already-written prefix behind. -/
def write_record_loop (store : AnnotationStore) (labels : List (String × ℕ)) :
    List String → List TFExample → Multiset String → ℕ →
    Except String (List TFExample × Multiset String × ℕ)
  | [], written, cnt, neg => .ok (written, cnt, neg)
  | f :: rest, written, cnt, neg =>
    match create_tf_example store labels f with
    | none => .error f
    | some (ex, c, isneg) =>
      write_record_loop store labels rest (written ++ [ex]) (cnt + c)
        (neg + if isneg then 1 else 0)

/-- Embedding of `write_record_from_list(id, labels, data, out_path)`: on
success returns the sequence of records written to the shard file together
with `Result(id, len(data), examples_count, negative_count)`; on an encoding
failure the error propagates out of the worker. -/
def write_record_from_list (store : AnnotationStore) (id : String)
    (labels : List (String × ℕ)) (data : List String) :
    Except String (List TFExample × Result) :=
  match write_record_loop store labels data [] 0 0 with
  | .error e => .error e
  | .ok (written, cnt, neg) => .ok (written, ⟨id, data.length, cnt, neg⟩)

/-- Embedding of `get_shuffled_filenames(folder)`. The `os.walk(folder)`
result is passed in as `walk`, a list of `(root, dirs, files)` triples; with
the default `onerror=None`, `os.walk` on an unreadable (or missing) root
folder reports no triple at all, so `walk = []` models that case. The
in-place `random.shuffle` is passed in as `shuffle`. Keeps every file whose
name ends in `.txt` but not in `rects.txt`, joined to its root. -/
def get_shuffled_filenames (walk : List (String × List String × List String))
    (shuffle : List String → List String) : List String :=
  shuffle ((walk.map (fun t =>
    (t.2.2.filter
      (fun name => name.endsWith ".txt" && !(name.endsWith "rects.txt"))).map
      (fun name => t.1 ++ "/" ++ name))).flatten)

/-- The set of distinct class names accumulated by the loop of
`get_labels_from_filenames`: `labels.update(set(classes))` per file,
starting from the empty set. -/
def label_set (store : AnnotationStore) (filenames : List String) : Finset String :=
  filenames.foldl (fun s f => s ∪ ((store.read_rects f).2.toFinset)) ∅

/-- Embedding of `get_labels_from_filenames(filenames)`: union the class
names of every file, sort the set lexicographically, and build the
dictionary `{label: i for i, label in enumerate(labels)}` (an association
list in insertion order). -/
def get_labels_from_filenames (store : AnnotationStore)
    (filenames : List String) : List (String × ℕ) :=
  let sorted := (label_set store filenames).sort (· ≤ ·)
  sorted.enum.map (fun p => (p.2, p.1))

/-- Python `int()` on a rational value: truncation toward zero. -/
def pythonInt (q : ℚ) : ℤ :=
  if 0 ≤ q then ⌊q⌋ else ⌈q⌉

/-- Embedding of `get_train_eval_split_filenames(filenames, split)`:
`eval_size = int(len(filenames) * split)`, eval is `filenames[:eval_size]`,
train is `filenames[eval_size:]`. The Python float `split` is embedded as a
rational. Returns `(train_filenames, eval_filenames)`. -/
def get_train_eval_split_filenames (filenames : List String) (split : ℚ) :
    List String × List String :=
  let eval_size := (pythonInt ((filenames.length : ℚ) * split)).toNat
  (filenames.drop eval_size, filenames.take eval_size)

/-- One `item { ... }` block of the label map file, as formatted by
`"item {\n  id: %d\n  name:'%s'\n}\n" % (i + 1, cls)` (here already taking
the one-indexed id as argument). -/
def label_item_block (idx : ℕ) (cls : String) : String :=
  "item \x7b\n  id: " ++ toString idx ++ "\n  name:\x27" ++ cls ++ "\x27\n\x7d\n"

/-- Embedding of `write_labels(folder, labels)`: the text written to
`label.pbtxt`, one block per dictionary entry in insertion order, storing
`id + 1`, joined by `"\n"`. -/
def write_labels (labels : List (String × ℕ)) : String :=
  String.intercalate "\n" (labels.map (fun p => label_item_block (p.2 + 1) p.1))

/-- The effective shard count `min(max(args.number, 1), len(filenames))`
computed in `get_record_writing_tasks` (for either split). -/
def effective_count (number : ℤ) (len : ℕ) : ℕ :=
  (min (max number 1) (len : ℤ)).toNat

/-- The loop `for i, filename in enumerate(filenames): lists[i % n].append(filename)`. -/
def distribute_loop (n : ℕ) : ℕ → List α → List (List α) → List (List α)
  | _, [], acc => acc
  | i, x :: rest, acc =>
    distribute_loop n (i + 1) rest (acc.set (i % n) ((acc.getD (i % n) []) ++ [x]))

/-- The shard lists built for one split by `get_record_writing_tasks`:
`n` empty lists (`n` the effective count) filled round-robin by index
modulo `n`. -/
def make_record_lists (number : ℤ) (files : List α) : List (List α) :=
  distribute_loop (effective_count number files.length) 0 files
    (List.replicate (effective_count number files.length) [])

/-- Zero-padded two-digit formatting `"%02d" % i`. -/
def format02 (i : ℕ) : String :=
  if i < 10 then "0" ++ toString i else toString i

/-- A shard task tuple `(id, labels, file_list, out_path)` as appended to
`tasks` by `get_record_writing_tasks`. -/
structure ShardTask where
  id : String
  labels : List (String × ℕ)
  files : List String
  out_path : String
deriving DecidableEq

/-- The tasks generated for one split (`split_name` is `"train"` or
`"eval"`): one task per shard list, with id `split_name ++ "-%02d" % i` and
output path `os.path.join(folder, split_name ++ "-%02d.record" % i)`. -/
def split_tasks (split_name folder : String) (labels : List (String × ℕ))
    (number : ℤ) (files : List String) : List ShardTask :=
  (make_record_lists number files).enum.map (fun p =>
    ⟨split_name ++ "-" ++ format02 p.1, labels, p.2,
     folder ++ "/" ++ split_name ++ "-" ++ format02 p.1 ++ ".record"⟩)

/-- Embedding of the task-building tail of `get_record_writing_tasks()`
(after the split mode has produced `train_filenames` and `eval_filenames`):
builds the labels over `train_filenames + eval_filenames`, then the train
tasks followed by the eval tasks. Returns `(tasks, labels)`. -/
def get_record_writing_tasks (store : AnnotationStore) (number : ℤ)
    (folder : String) (train_filenames eval_filenames : List String) :
    List ShardTask × List (String × ℕ) :=
  let labels := get_labels_from_filenames store (train_filenames ++ eval_filenames)
  (split_tasks "train" folder labels number train_filenames ++
     split_tasks "eval" folder labels number eval_filenames, labels)

/-- Error-propagating map over a task list: collects one result per element
in order and stops at the first failure, as `pool.starmap` does when a
worker raises (the exception is re-raised while collecting results). -/
def map_except (f : α → Except ε β) : List α → Except ε (List β)
  | [] => .ok []
  | a :: rest =>
    match f a with
    | .error e => .error e
    | .ok b =>
      match map_except f rest with
      | .error e => .error e
      | .ok bs => .ok (b :: bs)

/-- Embedding of the `__main__` block after argument handling: build the
tasks, run every shard writer (`pool.starmap(write_record_from_list, tasks)`
re-raises a worker failure when collecting results), and only then write the
label map. On success returns the worker results and the manifest text; a
worker failure propagates and no manifest is produced. -/
def run_conversion (store : AnnotationStore) (number : ℤ) (folder : String)
    (train_filenames eval_filenames : List String) :
    Except String (List Result × String) :=
  let tl := get_record_writing_tasks store number folder train_filenames eval_filenames
  match map_except (fun t =>
      (write_record_from_list store t.id t.labels t.files).map Prod.snd) tl.1 with
  | .error e => .error e
  | .ok results => .ok (results, write_labels tl.2)

/-- A small concrete annotation store used to instantiate the theorems on
concrete inputs: `f1` holds one `cat` box, `f2` is a negative example (no
boxes), `f3` holds a `dog` box and a `cat` box, and every image is 2×2 with
3 channels. -/
def demo_store : AnnotationStore where
  read_rects f :=
    if f = "f1" then ([((0 : ℚ), 0, 2, 2)], ["cat"])
    else if f = "f2" then ([], [])
    else ([((1 : ℚ), 1, 3, 3), ((0 : ℚ), 0, 1, 1)], ["dog", "cat"])
  img_path f := f ++ ".png"
  img_ok _ := true
  img_width _ := 2
  img_height _ := 2
  img_channels _ := 3

/-- The same store except that the image paired with `f1` cannot be opened,
modelling a run in which one worker hits a fatal decoding error. -/
def demo_store_broken : AnnotationStore :=
  { demo_store with img_ok := fun p => p != "f1.png" }

/-- The example the encoder produces for `f3` under `demo_store` with the
vocabulary `{cat: 0, dog: 1}`: boxes `(1,1,3,3)` and `(0,0,1,1)` on a 2×2
image give clamped normalized coordinates, class names `[dog, cat]` and ids
`[1, 0]`. -/
def demo_example_f3 : TFExample :=
  ⟨2, 2, 3, "f3.png", [1/2, 0], [1, 1/2], [1/2, 0], [1, 1/2], ["dog", "cat"], [1, 0]⟩

/-- The example the encoder produces for the negative annotation `f2` under
`demo_store`: no boxes, so all six per-box lists are empty. -/
def demo_example_f2 : TFExample :=
  ⟨2, 2, 3, "f2.png", [], [], [], [], [], []⟩

/-! ### Helper lemmas about the shard partitioner -/

theorem distribute_loop_length (n : ℕ) (files : List α) :
    ∀ (i : ℕ) (acc : List (List α)),
      (distribute_loop n i files acc).length = acc.length := by
  induction files with
  | nil => intro i acc; rfl
  | cons x rest ih =>
    intro i acc
    rw [distribute_loop, ih]
    exact acc.length_set ..

theorem getD_set_self (l : List β) (j : ℕ) (h : j < l.length) (v d : β) :
    (l.set j v).getD j d = v := by
  rw [List.getD_eq_getElem?_getD, List.getElem?_set_self h]
  rfl

theorem getD_set_ne (l : List β) {i j : ℕ} (h : i ≠ j) (v d : β) :
    (l.set i v).getD j d = l.getD j d := by
  rw [List.getD_eq_getElem?_getD, List.getElem?_set_ne h, ← List.getD_eq_getElem?_getD]

theorem getD_replicate_nil (n j : ℕ) :
    (List.replicate n ([] : List α)).getD j [] = [] := by
  rw [List.getD_eq_getElem?_getD, List.getElem?_replicate]
  split <;> rfl

theorem distribute_loop_getD (n : ℕ) (j : ℕ) (hj : j < n) (files : List α) :
    ∀ (i : ℕ) (acc : List (List α)), acc.length = n →
      (distribute_loop n i files acc).getD j [] =
        acc.getD j [] ++
          ((List.enumFrom i files).filter (fun p => p.1 % n == j)).map Prod.snd := by
  induction files with
  | nil => intro i acc h; simp [distribute_loop]
  | cons x rest ih =>
    intro i acc h
    rw [distribute_loop, ih (i + 1) _ (by rw [List.length_set]; exact h)]
    by_cases hc : i % n = j
    · rw [hc, getD_set_self _ _ (by rw [h]; exact hj)]
      simp only [List.enumFrom_cons, List.filter_cons, hc, beq_self_eq_true, if_true,
        List.map_cons, List.append_assoc]
      rfl
    · rw [getD_set_ne _ hc]
      simp only [List.enumFrom_cons, List.filter_cons]
      have hb : ((i, x).1 % n == j) = false := by simpa using hc
      simp only [hb, Bool.false_eq_true, if_false]

theorem flatten_set_append (x : α) (l : List (List α)) :
    ∀ (j : ℕ), j < l.length →
      (l.set j ((l.getD j []) ++ [x])).flatten ~ l.flatten ++ [x] := by
  induction l with
  | nil => intro j h; simp at h
  | cons a as ih =>
    intro j h
    cases j with
    | zero =>
      simp only [List.set_cons_zero, List.getD_cons_zero, List.flatten_cons,
        List.append_assoc]
      exact List.Perm.append_left a List.perm_append_comm
    | succ j =>
      simp only [List.set_cons_succ, List.getD_cons_succ, List.flatten_cons]
      calc a ++ (as.set j ((as.getD j []) ++ [x])).flatten
          ~ a ++ (as.flatten ++ [x]) :=
            List.Perm.append_left a (ih j (by simpa using h))
        _ = (a ++ as.flatten) ++ [x] := by rw [List.append_assoc]

theorem distribute_loop_flatten (n : ℕ) (hn : 0 < n) (files : List α) :
    ∀ (i : ℕ) (acc : List (List α)), acc.length = n →
      (distribute_loop n i files acc).flatten ~ acc.flatten ++ files := by
  induction files with
  | nil => intro i acc h; simp [distribute_loop]
  | cons x rest ih =>
    intro i acc h
    rw [distribute_loop]
    calc (distribute_loop n (i + 1) rest
            (acc.set (i % n) ((acc.getD (i % n) []) ++ [x]))).flatten
        ~ (acc.set (i % n) ((acc.getD (i % n) []) ++ [x])).flatten ++ rest :=
          ih (i + 1) _ (by rw [List.length_set]; exact h)
      _ ~ (acc.flatten ++ [x]) ++ rest :=
          (flatten_set_append x acc _ (by rw [h]; exact Nat.mod_lt _ hn)).append_right rest
      _ = acc.flatten ++ (x :: rest) := by rw [List.append_assoc]; rfl

theorem flatten_replicate_nil (n : ℕ) :
    (List.replicate n ([] : List α)).flatten = [] := by
  induction n with
  | zero => rfl
  | succ n ih => rw [List.replicate_succ, List.flatten_cons, List.nil_append, ih]

theorem count_residue (n : ℕ) (hn : 0 < n) (j : ℕ) (hj : j < n) (L : ℕ) :
    ((List.range L).filter (fun i => i % n == j)).length
      = L / n + if j < L % n then 1 else 0 := by
  induction L with
  | zero => simp
  | succ L ih =>
    rw [List.range_succ, List.filter_append, List.length_append, ih]
    have hr : L % n < n := Nat.mod_lt _ hn
    have hsing : (List.filter (fun i => i % n == j) [L]).length
        = if L % n = j then 1 else 0 := by
      simp only [List.filter_cons, List.filter_nil]
      by_cases hc : L % n = j
      · simp [hc]
      · have hb : (L % n == j) = false := by simpa using hc
        simp [hb, hc]
    rw [hsing]
    have hmod : (L + 1) % n = (L % n + 1) % n := by
      conv_lhs => rw [← Nat.div_add_mod L n]
      rw [Nat.add_assoc, Nat.mul_add_mod]
    have hdiv : (L + 1) / n = L / n + (L % n + 1) / n := by
      conv_lhs => rw [← Nat.div_add_mod L n]
      rw [Nat.add_assoc, Nat.mul_add_div hn]
    by_cases hC : L % n + 1 = n
    · rw [hC] at hmod hdiv
      rw [Nat.mod_self] at hmod
      rw [Nat.div_self hn] at hdiv
      rw [hmod, hdiv]
      split_ifs <;> omega
    · have h2 : L % n + 1 < n := by omega
      rw [Nat.mod_eq_of_lt h2] at hmod
      rw [Nat.div_eq_of_lt h2] at hdiv
      rw [hmod, hdiv]
      split_ifs <;> omega

theorem enumFrom_filter_fst_length (p : ℕ → Bool) (files : List α) :
    ∀ (i : ℕ), ((List.enumFrom i files).filter (fun q => p q.1)).length
      = ((List.range' i files.length).filter p).length := by
  induction files with
  | nil => intro i; rfl
  | cons x rest ih =>
    intro i
    rw [List.enumFrom_cons, List.length_cons, List.range'_succ, List.filter_cons,
      List.filter_cons]
    by_cases hc : p i
    · simp only [hc, if_true, List.length_cons, ih]
    · simp only [hc, Bool.false_eq_true, if_false, ih]

theorem make_record_lists_length (number : ℤ) (files : List α) :
    (make_record_lists number files).length = effective_count number files.length := by
  rw [make_record_lists, distribute_loop_length, List.length_replicate]

theorem make_record_lists_getD_length (number : ℤ) (files : List α) (j : ℕ)
    (hj : j < effective_count number files.length) :
    ((make_record_lists number files).getD j []).length
      = files.length / effective_count number files.length
        + if j < files.length % effective_count number files.length then 1 else 0 := by
  have hn : 0 < effective_count number files.length := Nat.lt_of_le_of_lt (Nat.zero_le _) hj
  rw [make_record_lists,
    distribute_loop_getD _ _ hj _ 0 _ (List.length_replicate _ _),
    getD_replicate_nil, List.nil_append, List.length_map,
    enumFrom_filter_fst_length (fun i => i % effective_count number files.length == j)
      files 0,
    ← List.range_eq_range', count_residue _ hn j hj]

theorem effective_count_pos (number : ℤ) {L : ℕ} (h : 0 < L) :
    0 < effective_count number L := by
  rw [effective_count]
  have h1 : (1 : ℤ) ≤ min (max number 1) (L : ℤ) :=
    le_min (le_max_right _ _) (by exact_mod_cast h)
  have h2 := Int.toNat_le_toNat h1
  simp only [Int.toNat_one] at h2
  omega

theorem make_record_lists_flatten_perm (number : ℤ) (files : List α) :
    (make_record_lists number files).flatten ~ files := by
  by_cases hfe : files = []
  · subst hfe
    simp [make_record_lists, distribute_loop, flatten_replicate_nil]
  · have hn : 0 < effective_count number files.length :=
      effective_count_pos number (List.length_pos.mpr hfe)
    have hp := distribute_loop_flatten _ hn files 0
      (List.replicate (effective_count number files.length) [])
      (List.length_replicate _ _)
    rw [flatten_replicate_nil, List.nil_append] at hp
    exact hp

/-! ### Claim theorems -/

/-- Claim C1 (Shard Partitioner): for every file list of length `L` and
requested shard count `N`, one shard task is produced per shard list, the
number of shard lists is the effective count `min(max(N,1), L)` (so zero
exactly when `L = 0`), `file[i]` lands in shard `i % N'` with `N'` the
effective count, the concatenation of all shards is a permutation of the
input list (every file appears in exactly one shard, with multiplicity),
and any two shard sizes differ by at most one. -/
theorem C1_shard_partitioner (name folder : String) (labels : List (String × ℕ))
    (number : ℤ) (files : List String) :
    (split_tasks name folder labels number files).length
        = effective_count number files.length
    ∧ (split_tasks name folder labels number files).map ShardTask.files
        = make_record_lists number files
    ∧ (files = [] → split_tasks name folder labels number files = [])
    ∧ (files ≠ [] →
        (effective_count number files.length : ℤ)
          = min (max number 1) (files.length : ℤ))
    ∧ (∀ i, ∀ h : i < files.length,
        files[i] ∈ (make_record_lists number files).getD
          (i % effective_count number files.length) [])
    ∧ (make_record_lists number files).flatten ~ files
    ∧ (∀ j k, j < effective_count number files.length →
        k < effective_count number files.length →
        ((make_record_lists number files).getD j []).length
          ≤ ((make_record_lists number files).getD k []).length + 1) := by
  refine ⟨?_, ?_, ?_, ?_, ?_, ?_, ?_⟩
  · rw [split_tasks, List.length_map, List.enum_length, make_record_lists_length]
  · rw [split_tasks, List.map_map]
    exact List.enum_map_snd _
  · intro h
    subst h
    have h0 : min (max number 1) ((List.length ([] : List String) : ℕ) : ℤ) = 0 :=
      min_eq_right (le_trans zero_le_one (le_max_right number 1))
    simp [split_tasks, make_record_lists, distribute_loop, effective_count, h0]
  · intro h
    rw [effective_count, Int.toNat_of_nonneg]
    exact le_min (le_trans zero_le_one (le_max_right number 1))
      (by exact_mod_cast Nat.zero_le _)
  · intro i h
    have hn : 0 < effective_count number files.length :=
      effective_count_pos number (Nat.lt_of_le_of_lt (Nat.zero_le _) h)
    rw [make_record_lists,
      distribute_loop_getD _ _ (Nat.mod_lt _ hn) _ 0 _ (List.length_replicate _ _),
      getD_replicate_nil, List.nil_append]
    refine List.mem_map.mpr ⟨(i, files[i]), List.mem_filter.mpr ⟨?_, ?_⟩, rfl⟩
    · have h' : i < (List.enumFrom 0 files).length := by
        simpa [List.enumFrom_length] using h
      have he := List.getElem_enumFrom files 0 i h'
      rw [Nat.zero_add] at he
      rw [← he]
      exact List.getElem_mem h'
    · exact beq_self_eq_true _
  · exact make_record_lists_flatten_perm number files
  · intro j k hj hk
    rw [make_record_lists_getD_length _ _ j hj, make_record_lists_getD_length _ _ k hk]
    split_ifs <;> omega

/-- Concrete instance of C1: with three files and a requested count of 2,
two shard tasks are produced and the third file lands in shard `2 % 2 = 0`. -/
theorem C1_shard_partitioner_witness :
    (split_tasks "train" "out" [] 2 ["a", "b", "c"]).length = 2
    ∧ "c" ∈ (make_record_lists 2 ["a", "b", "c"]).getD 0 [] := by
  refine ⟨?_, ?_⟩
  · exact ((C1_shard_partitioner "train" "out" [] 2 ["a", "b", "c"]).1).trans (by decide)
  · have h := (C1_shard_partitioner "train" "out" [] 2 ["a", "b", "c"]).2.2.2.2.1
      2 (by decide)
    have e : (2 % effective_count 2 ["a", "b", "c"].length) = 0 := by decide
    rw [e] at h
    exact h

/-- Claim C2 (Split Planner, auto-split mode): for every file list of length
`L` and fraction `f ∈ [0,1]`, eval is exactly the first `⌊L*f⌋` elements and
train exactly the rest, `len(eval) = ⌊L*f⌋`, `len(train) = L - len(eval)`,
`train ++ eval` is a permutation of the original list, `f = 0` gives an empty
eval set and `f = 1` an empty train set. -/
theorem C2_split_planner (filenames : List String) (split : ℚ)
    (h0 : 0 ≤ split) (h1 : split ≤ 1) :
    (get_train_eval_split_filenames filenames split).2
        = filenames.take (⌊(filenames.length : ℚ) * split⌋).toNat
    ∧ (get_train_eval_split_filenames filenames split).1
        = filenames.drop (⌊(filenames.length : ℚ) * split⌋).toNat
    ∧ ((get_train_eval_split_filenames filenames split).2.length : ℤ)
        = ⌊(filenames.length : ℚ) * split⌋
    ∧ (get_train_eval_split_filenames filenames split).1.length
        = filenames.length - (get_train_eval_split_filenames filenames split).2.length
    ∧ (get_train_eval_split_filenames filenames split).1
        ++ (get_train_eval_split_filenames filenames split).2 ~ filenames
    ∧ (split = 0 → (get_train_eval_split_filenames filenames split).2 = [])
    ∧ (split = 1 → (get_train_eval_split_filenames filenames split).1 = []) := by
  have hq : 0 ≤ (filenames.length : ℚ) * split :=
    mul_nonneg (by exact_mod_cast Nat.zero_le _) h0
  have hfloor0 : 0 ≤ ⌊(filenames.length : ℚ) * split⌋ := Int.floor_nonneg.mpr hq
  have hle : ⌊(filenames.length : ℚ) * split⌋ ≤ (filenames.length : ℤ) := by
    have hm : (filenames.length : ℚ) * split ≤ ((filenames.length : ℕ) : ℚ) :=
      mul_le_of_le_one_right (by exact_mod_cast Nat.zero_le _) h1
    calc ⌊(filenames.length : ℚ) * split⌋
        ≤ ⌊((filenames.length : ℕ) : ℚ)⌋ := Int.floor_le_floor hm
      _ = (filenames.length : ℤ) := Int.floor_natCast _
  have hkle : (⌊(filenames.length : ℚ) * split⌋).toNat ≤ filenames.length := by omega
  refine ⟨?_, ?_, ?_, ?_, ?_, ?_, ?_⟩
  · simp only [get_train_eval_split_filenames, pythonInt, if_pos hq]
  · simp only [get_train_eval_split_filenames, pythonInt, if_pos hq]
  · simp only [get_train_eval_split_filenames, pythonInt, if_pos hq, List.length_take]
    rw [Nat.min_eq_left hkle, Int.toNat_of_nonneg hfloor0]
  · simp only [get_train_eval_split_filenames, pythonInt, if_pos hq, List.length_take,
      List.length_drop, Nat.min_eq_left hkle]
  · simp only [get_train_eval_split_filenames]
    calc filenames.drop ((pythonInt ((filenames.length : ℚ) * split)).toNat)
          ++ filenames.take ((pythonInt ((filenames.length : ℚ) * split)).toNat)
        ~ filenames.take ((pythonInt ((filenames.length : ℚ) * split)).toNat)
          ++ filenames.drop ((pythonInt ((filenames.length : ℚ) * split)).toNat) :=
          List.perm_append_comm
      _ = filenames := List.take_append_drop _ filenames
  · intro h
    subst h
    simp [get_train_eval_split_filenames, pythonInt]
  · intro h
    subst h
    simp [get_train_eval_split_filenames, pythonInt, Int.floor_natCast]

/-- Concrete instance of C2: with four files and an eval fraction of one
half, eval gets the first two files and train the remaining two. -/
theorem C2_split_planner_witness :
    (get_train_eval_split_filenames ["a", "b", "c", "d"] (1/2)).1
        ++ (get_train_eval_split_filenames ["a", "b", "c", "d"] (1/2)).2
        ~ ["a", "b", "c", "d"]
    ∧ (get_train_eval_split_filenames ["a", "b", "c", "d"] (1/2)).2.length = 2 := by
  refine ⟨(C2_split_planner ["a", "b", "c", "d"] (1/2) (by norm_num)
    (by norm_num)).2.2.2.2.1, ?_⟩
  have h := (C2_split_planner ["a", "b", "c", "d"] (1/2) (by norm_num)
    (by norm_num)).2.2.1
  have e : ⌊((["a", "b", "c", "d"].length : ℕ) : ℚ) * (1/2)⌋ = 2 := by norm_num
  rw [e] at h
  exact_mod_cast h

theorem foldl_union_finset (store : AnnotationStore) :
    ∀ (fns : List String) (init : Finset String),
      fns.foldl (fun s f => s ∪ ((store.read_rects f).2.toFinset)) init
        = init ∪ ((fns.map (fun f => (store.read_rects f).2)).flatten).toFinset := by
  intro fns
  induction fns with
  | nil => intro init; simp
  | cons f rest ih =>
    intro init
    rw [List.foldl_cons, ih, List.map_cons, List.flatten_cons, List.toFinset_append,
      Finset.union_assoc]

theorem label_set_eq_toFinset (store : AnnotationStore) (fns : List String) :
    label_set store fns
      = ((fns.map (fun f => (store.read_rects f).2)).flatten).toFinset := by
  rw [label_set, foldl_union_finset, Finset.empty_union]

theorem label_set_perm (store : AnnotationStore) {fns1 fns2 : List String}
    (h : fns1 ~ fns2) : label_set store fns1 = label_set store fns2 := by
  rw [label_set_eq_toFinset, label_set_eq_toFinset]
  exact List.toFinset_eq_of_perm _ _ ((h.map _).flatten)

theorem get_labels_keys (store : AnnotationStore) (fns : List String) :
    (get_labels_from_filenames store fns).map Prod.fst
      = (label_set store fns).sort (· ≤ ·) := by
  rw [get_labels_from_filenames, List.map_map]
  exact List.enum_map_snd _

theorem get_labels_ids (store : AnnotationStore) (fns : List String) :
    (get_labels_from_filenames store fns).map Prod.snd
      = List.range ((label_set store fns).card) := by
  rw [get_labels_from_filenames, List.map_map]
  calc List.map (Prod.snd ∘ fun p => (p.2, p.1))
        ((label_set store fns).sort (· ≤ ·)).enum
      = List.map Prod.fst ((label_set store fns).sort (· ≤ ·)).enum := rfl
    _ = List.range (((label_set store fns).sort (· ≤ ·)).length) :=
        List.enum_map_fst _
    _ = List.range ((label_set store fns).card) := by rw [Finset.length_sort]

/-- Claim C3 (Label Vocabulary Builder): the mapping pairs the `K` distinct
class names, in lexicographically sorted order, with the contiguous ids
`0..K-1`; it depends only on the set of distinct class names, so any two
input file lists yielding the same set of class names (in particular any
permutation of the same list) produce the identical mapping. -/
theorem C3_label_vocabulary (store : AnnotationStore)
    (filenames1 filenames2 filenames : List String) :
    (((filenames1.map (fun f => (store.read_rects f).2)).flatten).toFinset
        = ((filenames2.map (fun f => (store.read_rects f).2)).flatten).toFinset →
      get_labels_from_filenames store filenames1
        = get_labels_from_filenames store filenames2)
    ∧ (filenames1 ~ filenames2 →
      get_labels_from_filenames store filenames1
        = get_labels_from_filenames store filenames2)
    ∧ (get_labels_from_filenames store filenames).length
        = (label_set store filenames).card
    ∧ (get_labels_from_filenames store filenames).map Prod.fst
        = (label_set store filenames).sort (· ≤ ·)
    ∧ (get_labels_from_filenames store filenames).map Prod.snd
        = List.range ((label_set store filenames).card) := by
  refine ⟨?_, ?_, ?_, ?_, ?_⟩
  · intro h
    simp only [get_labels_from_filenames]
    rw [show label_set store filenames1 = label_set store filenames2 by
      rw [label_set_eq_toFinset, label_set_eq_toFinset, h]]
  · intro h
    simp only [get_labels_from_filenames]
    rw [label_set_perm store h]
  · rw [get_labels_from_filenames, List.length_map, List.enum_length,
      Finset.length_sort]
  · exact get_labels_keys store filenames
  · exact get_labels_ids store filenames

theorem create_tf_example_some {store : AnnotationStore}
    {labels : List (String × ℕ)} {txt : String} {ex : TFExample}
    {cnt : Multiset String} {neg : Bool}
    (h : create_tf_example store labels txt = some (ex, cnt, neg)) :
    store.img_ok (store.img_path txt) = true
    ∧ lookup_all labels (store.read_rects txt).2 = some ex.class_ids
    ∧ ex.height = store.img_height (store.img_path txt)
    ∧ ex.width = store.img_width (store.img_path txt)
    ∧ ex.xmins = (store.read_rects txt).1.map (fun rect =>
        max (min (rect.1 / (store.img_width (store.img_path txt) : ℚ)) 1) 0)
    ∧ ex.xmaxs = (store.read_rects txt).1.map (fun rect =>
        max (min (rect.2.2.1 / (store.img_width (store.img_path txt) : ℚ)) 1) 0)
    ∧ ex.ymins = (store.read_rects txt).1.map (fun rect =>
        max (min (rect.2.1 / (store.img_height (store.img_path txt) : ℚ)) 1) 0)
    ∧ ex.ymaxs = (store.read_rects txt).1.map (fun rect =>
        max (min (rect.2.2.2 / (store.img_height (store.img_path txt) : ℚ)) 1) 0)
    ∧ ex.classes_txt = (store.read_rects txt).2
    ∧ cnt = ((store.read_rects txt).2 : Multiset String)
    ∧ neg = ((store.read_rects txt).1.length == 0) := by
  cases hok : store.img_ok (store.img_path txt) with
  | false =>
    exfalso
    simp [create_tf_example, hok] at h
  | true =>
    simp only [create_tf_example, hok, Bool.not_true, Bool.false_eq_true, if_false] at h
    cases hl : lookup_all labels (store.read_rects txt).2 with
    | none =>
      exfalso
      rw [hl] at h
      cases h
    | some ids =>
      rw [hl] at h
      injection h with h1
      have hA := congrArg (fun p => p.1) h1
      have hB := congrArg (fun p => p.2.1) h1
      have hC := congrArg (fun p => p.2.2) h1
      simp only at hA hB hC
      subst hA
      exact ⟨rfl, rfl, rfl, rfl, rfl, rfl, rfl, rfl, rfl, hB.symm, hC.symm⟩

/-- Concrete instance of C3: swapping the two input files leaves the
produced label mapping unchanged. -/
theorem C3_label_vocabulary_witness :
    ["f1", "f3"] ~ ["f3", "f1"]
    ∧ get_labels_from_filenames demo_store ["f1", "f3"]
        = get_labels_from_filenames demo_store ["f3", "f1"] :=
  ⟨List.Perm.swap "f3" "f1" [],
    (C3_label_vocabulary demo_store ["f1", "f3"] ["f3", "f1"] []).2.1
      (List.Perm.swap "f3" "f1" [])⟩

theorem clamp_mem_unit {l : List Rect} {g : Rect → ℚ} {q : ℚ}
    (hq : q ∈ l.map (fun r => max (min (g r) 1) 0)) : 0 ≤ q ∧ q ≤ 1 := by
  obtain ⟨r, -, rfl⟩ := List.mem_map.mp hq
  exact ⟨le_max_right _ _, max_le (min_le_right _ _) zero_le_one⟩

theorem lookup_all_some_length (labels : List (String × ℕ)) :
    ∀ (cs : List String) (ids : List ℕ),
      lookup_all labels cs = some ids → ids.length = cs.length := by
  intro cs
  induction cs with
  | nil =>
    intro ids h
    simp only [lookup_all] at h
    injection h with h1
    rw [← h1]
    rfl
  | cons c rest ih =>
    intro ids h
    simp only [lookup_all] at h
    cases h1 : List.lookup c labels with
    | none => rw [h1] at h; simp at h
    | some i =>
      rw [h1] at h
      cases h2 : lookup_all labels rest with
      | none => rw [h2] at h; simp at h
      | some is =>
        rw [h2] at h
        injection h with h3
        rw [← h3, List.length_cons, ih is h2, List.length_cons]

theorem create_tf_example_build {store : AnnotationStore}
    {labels : List (String × ℕ)} {txt : String} {ids : List ℕ}
    (hok : store.img_ok (store.img_path txt) = true)
    (hl : lookup_all labels (store.read_rects txt).2 = some ids) :
    create_tf_example store labels txt = some
      (⟨store.img_height (store.img_path txt), store.img_width (store.img_path txt),
        store.img_channels (store.img_path txt), store.img_path txt,
        (store.read_rects txt).1.map (fun rect =>
          max (min (rect.1 / (store.img_width (store.img_path txt) : ℚ)) 1) 0),
        (store.read_rects txt).1.map (fun rect =>
          max (min (rect.2.2.1 / (store.img_width (store.img_path txt) : ℚ)) 1) 0),
        (store.read_rects txt).1.map (fun rect =>
          max (min (rect.2.1 / (store.img_height (store.img_path txt) : ℚ)) 1) 0),
        (store.read_rects txt).1.map (fun rect =>
          max (min (rect.2.2.2 / (store.img_height (store.img_path txt) : ℚ)) 1) 0),
        (store.read_rects txt).2, ids⟩,
       ((store.read_rects txt).2 : Multiset String),
       ((store.read_rects txt).1.length == 0)) := by
  simp only [create_tf_example, hok, Bool.not_true, Bool.false_eq_true, if_false, hl]

theorem demo_f3_encodes :
    create_tf_example demo_store [("cat", 0), ("dog", 1)] "f3"
      = some (demo_example_f3, (["dog", "cat"] : Multiset String), false) := by
  have hlk : lookup_all [("cat", 0), ("dog", 1)] (demo_store.read_rects "f3").2
      = some [1, 0] := by decide
  have hok : demo_store.img_ok (demo_store.img_path "f3") = true := rfl
  rw [create_tf_example_build hok hlk]
  simp [demo_store, demo_example_f3, max_def, min_def]
  norm_num

/-- Claim C4 (coordinate normalization): each emitted normalized coordinate
is the raw pixel coordinate divided by the image width (x) or height (y)
and clamped into `[0,1]` by `max(min(·,1),0)`; consequently every value in
the four emitted coordinate lists lies in `[0,1]`, whatever the raw
coordinates were. -/
theorem C4_coordinate_normalization (store : AnnotationStore)
    (labels : List (String × ℕ)) (txt : String) (ex : TFExample)
    (cnt : Multiset String) (neg : Bool)
    (hw : 0 < store.img_width (store.img_path txt))
    (hh : 0 < store.img_height (store.img_path txt))
    (h : create_tf_example store labels txt = some (ex, cnt, neg)) :
    (ex.xmins = (store.read_rects txt).1.map (fun rect =>
        max (min (rect.1 / (store.img_width (store.img_path txt) : ℚ)) 1) 0)
      ∧ ex.xmaxs = (store.read_rects txt).1.map (fun rect =>
        max (min (rect.2.2.1 / (store.img_width (store.img_path txt) : ℚ)) 1) 0)
      ∧ ex.ymins = (store.read_rects txt).1.map (fun rect =>
        max (min (rect.2.1 / (store.img_height (store.img_path txt) : ℚ)) 1) 0)
      ∧ ex.ymaxs = (store.read_rects txt).1.map (fun rect =>
        max (min (rect.2.2.2 / (store.img_height (store.img_path txt) : ℚ)) 1) 0))
    ∧ (∀ q ∈ ex.xmins, 0 ≤ q ∧ q ≤ 1)
    ∧ (∀ q ∈ ex.xmaxs, 0 ≤ q ∧ q ≤ 1)
    ∧ (∀ q ∈ ex.ymins, 0 ≤ q ∧ q ≤ 1)
    ∧ (∀ q ∈ ex.ymaxs, 0 ≤ q ∧ q ≤ 1) := by
  obtain ⟨-, -, -, -, hx1, hx2, hy1, hy2, -, -, -⟩ := create_tf_example_some h
  refine ⟨⟨hx1, hx2, hy1, hy2⟩, ?_, ?_, ?_, ?_⟩
  · intro q hq
    rw [hx1] at hq
    exact clamp_mem_unit hq
  · intro q hq
    rw [hx2] at hq
    exact clamp_mem_unit hq
  · intro q hq
    rw [hy1] at hq
    exact clamp_mem_unit hq
  · intro q hq
    rw [hy2] at hq
    exact clamp_mem_unit hq

/-- Concrete instance of C4: the `f3` annotation has a box sticking out of
the 2×2 image (raw xmax `3`), and every emitted coordinate, including the
clamped `xmax`, lies in `[0,1]`. -/
theorem C4_coordinate_normalization_witness :
    create_tf_example demo_store [("cat", 0), ("dog", 1)] "f3"
        = some (demo_example_f3, (["dog", "cat"] : Multiset String), false)
    ∧ 0 < demo_store.img_width (demo_store.img_path "f3")
    ∧ ∀ q ∈ demo_example_f3.xmaxs, 0 ≤ q ∧ q ≤ 1 := by
  have hc := demo_f3_encodes
  exact ⟨hc, by decide,
    (C4_coordinate_normalization demo_store [("cat", 0), ("dog", 1)] "f3"
      demo_example_f3 (["dog", "cat"] : Multiset String) false
      (by decide) (by decide) hc).2.2.1⟩

/-- Claim C10 (record parallel-list invariant): when the box reader returns
a box list and a class-name list both of length `n`, the six per-box lists
of the emitted record (xmin, xmax, ymin, ymax, class text, class id) all
have length exactly `n`. -/
theorem C10_record_parallel_lists (store : AnnotationStore)
    (labels : List (String × ℕ)) (txt : String) (ex : TFExample)
    (cnt : Multiset String) (neg : Bool) (n : ℕ)
    (hr : (store.read_rects txt).1.length = n)
    (hcl : (store.read_rects txt).2.length = n)
    (h : create_tf_example store labels txt = some (ex, cnt, neg)) :
    ex.xmins.length = n ∧ ex.xmaxs.length = n ∧ ex.ymins.length = n
    ∧ ex.ymaxs.length = n ∧ ex.classes_txt.length = n
    ∧ ex.class_ids.length = n := by
  obtain ⟨-, hl, -, -, hx1, hx2, hy1, hy2, hct, -, -⟩ := create_tf_example_some h
  refine ⟨?_, ?_, ?_, ?_, ?_, ?_⟩
  · rw [hx1, List.length_map, hr]
  · rw [hx2, List.length_map, hr]
  · rw [hy1, List.length_map, hr]
  · rw [hy2, List.length_map, hr]
  · rw [hct, hcl]
  · rw [lookup_all_some_length labels _ _ hl, hcl]

/-- Concrete instance of C10: the `f3` record has two boxes, two class
names and two class ids. -/
theorem C10_record_parallel_lists_witness :
    (demo_store.read_rects "f3").1.length = 2
    ∧ demo_example_f3.class_ids.length = 2 := by
  have hc := demo_f3_encodes
  exact ⟨by decide,
    (C10_record_parallel_lists demo_store [("cat", 0), ("dog", 1)] "f3"
      demo_example_f3 (["dog", "cat"] : Multiset String) false 2
      (by decide) (by decide) hc).2.2.2.2.2⟩

theorem demo_f2_encodes :
    create_tf_example demo_store [("cat", 0), ("dog", 1)] "f2"
      = some (demo_example_f2, (([] : List String) : Multiset String), true) := by
  have hlk : lookup_all [("cat", 0), ("dog", 1)] (demo_store.read_rects "f2").2
      = some [] := by decide
  have hok : demo_store.img_ok (demo_store.img_path "f2") = true := rfl
  rw [create_tf_example_build hok hlk]
  simp [demo_store, demo_example_f2]

theorem write_record_loop_negative (store : AnnotationStore)
    (labels : List (String × ℕ)) :
    ∀ (data : List String) (written : List TFExample) (cnt : Multiset String)
      (neg : ℕ) (w : List TFExample) (c : Multiset String) (n : ℕ),
      write_record_loop store labels data written cnt neg = .ok (w, c, n) →
      n = neg + data.countP (fun f => (store.read_rects f).1.length == 0) := by
  intro data
  induction data with
  | nil =>
    intro written cnt neg w c n h
    simp only [write_record_loop] at h
    injection h with h1
    have h2 := congrArg (fun p => p.2.2) h1
    simp only at h2
    simp [← h2]
  | cons f rest ih =>
    intro written cnt neg w c n h
    simp only [write_record_loop] at h
    cases hc : create_tf_example store labels f with
    | none =>
      exfalso
      rw [hc] at h
      simp at h
    | some r =>
      obtain ⟨ex, c2, isneg⟩ := r
      rw [hc] at h
      have h1 : write_record_loop store labels rest (written ++ [ex]) (cnt + c2)
          (neg + if isneg then 1 else 0) = .ok (w, c, n) := h
      have h2 := ih _ _ _ _ _ _ h1
      have h3 : isneg = ((store.read_rects f).1.length == 0) :=
        (create_tf_example_some hc).2.2.2.2.2.2.2.2.2.2
      rw [List.countP_cons]
      rw [h3] at h2
      by_cases hz : (store.read_rects f).1.length = 0
      · simp only [hz] at h2 ⊢
        simp at h2 ⊢
        omega
      · have hb : ((store.read_rects f).1.length == 0) = false := by simpa using hz
        rw [hb] at h2
        simp only [hb]
        simp at h2 ⊢
        omega

/-- Claim C9 (negative-example accounting): an annotation whose box list is
empty yields an empty per-class counter and a negative flag of `true`
(given the data-model invariant that the box and class lists have equal
length); a nonempty annotation yields a negative flag of `false` and a
counter totalling the number of boxes; and the shard writer's negative
count is exactly the number of files in its list whose box list is empty,
so each negative file counts exactly once and others count zero. -/
theorem C9_negative_accounting (store : AnnotationStore)
    (labels : List (String × ℕ)) (txt : String) (ex : TFExample)
    (cnt : Multiset String) (neg : Bool) (id : String) (data : List String)
    (written : List TFExample) (res : Result) :
    (create_tf_example store labels txt = some (ex, cnt, neg) →
      (store.read_rects txt).2.length = (store.read_rects txt).1.length →
      (((store.read_rects txt).1 = [] → cnt = 0 ∧ neg = true)
       ∧ ((store.read_rects txt).1 ≠ [] →
           neg = false ∧ Multiset.card cnt = (store.read_rects txt).1.length)))
    ∧ (write_record_from_list store id labels data = .ok (written, res) →
        res.negative_count
          = data.countP (fun f => (store.read_rects f).1.length == 0)) := by
  constructor
  · intro h hlen
    obtain ⟨-, -, -, -, -, -, -, -, -, hcnt, hneg⟩ := create_tf_example_some h
    constructor
    · intro hz
      have hcl : (store.read_rects txt).2 = [] :=
        List.length_eq_zero.mp (by rw [hlen, hz]; rfl)
      constructor
      · rw [hcnt, hcl]
        rfl
      · rw [hneg, hz]
        rfl
    · intro hnz
      constructor
      · rw [hneg]
        exact beq_eq_false_iff_ne.mpr (fun hx => hnz (List.length_eq_zero.mp hx))
      · rw [hcnt, Multiset.coe_card, hlen]
  · intro h
    revert h
    simp only [write_record_from_list]
    cases hloop : write_record_loop store labels data [] 0 0 with
    | error e =>
      intro h
      cases h
    | ok out =>
      obtain ⟨w, cc, nn⟩ := out
      intro h
      injection h with h1
      have hres := congrArg (fun p => p.2) h1
      simp only at hres
      have h2 := write_record_loop_negative store labels data [] 0 0 w cc nn hloop
      rw [← hres]
      simpa using h2

/-- Concrete instance of C9: the box-less annotation `f2` gets an empty
counter and negative flag `true`, and a shard writer over `[f2]` reports
exactly one negative example. -/
theorem C9_negative_accounting_witness :
    (demo_store.read_rects "f2").1 = []
    ∧ ((([] : List String) : Multiset String) = 0 ∧ (true : Bool) = true)
    ∧ (⟨"w", 1, 0, 1⟩ : Result).negative_count
        = List.countP (fun f => (demo_store.read_rects f).1.length == 0) ["f2"] := by
  have hwr : write_record_from_list demo_store "w" [("cat", 0), ("dog", 1)] ["f2"]
      = .ok ([demo_example_f2], ⟨"w", 1, 0, 1⟩) := by
    simp [write_record_from_list, write_record_loop, demo_f2_encodes]
  refine ⟨by decide, ?_, ?_⟩
  · exact (C9_negative_accounting demo_store [("cat", 0), ("dog", 1)] "f2"
      demo_example_f2 (([] : List String) : Multiset String) true "w" ["f2"]
      [demo_example_f2] ⟨"w", 1, 0, 1⟩).1 demo_f2_encodes (by decide)
      |>.1 (by decide)
  · exact (C9_negative_accounting demo_store [("cat", 0), ("dog", 1)] "f2"
      demo_example_f2 (([] : List String) : Multiset String) true "w" ["f2"]
      [demo_example_f2] ⟨"w", 1, 0, 1⟩).2 hwr

theorem lookup_isSome_of_mem_keys :
    ∀ (l : List (String × ℕ)) (c : String), c ∈ l.map Prod.fst →
      (List.lookup c l).isSome := by
  intro l
  induction l with
  | nil =>
    intro c hc
    simp at hc
  | cons p rest ih =>
    intro c hc
    obtain ⟨a, b⟩ := p
    rw [List.map_cons, List.mem_cons] at hc
    simp only [List.lookup]
    cases hbeq : (c == a) with
    | true => simp
    | false =>
      have hne : c ≠ a := by simpa using hbeq
      rcases hc with hc1 | hc2
      · exact absurd hc1 hne
      · exact ih c hc2

theorem lookup_all_isSome (labels : List (String × ℕ)) :
    ∀ (cs : List String), (∀ c ∈ cs, (List.lookup c labels).isSome) →
      (lookup_all labels cs).isSome := by
  intro cs
  induction cs with
  | nil =>
    intro h
    simp [lookup_all]
  | cons c rest ih =>
    intro h
    have h1 := h c (List.mem_cons_self c rest)
    simp only [lookup_all]
    cases hl : List.lookup c labels with
    | none => rw [hl] at h1; simp at h1
    | some i =>
      have h2 := ih (fun d hd => h d (List.mem_cons_of_mem c hd))
      cases h3 : lookup_all labels rest with
      | none => rw [h3] at h2; simp at h2
      | some is => simp

theorem mem_label_set_of_read {store : AnnotationStore} {fns : List String}
    {f c : String} (hf : f ∈ fns) (hc : c ∈ (store.read_rects f).2) :
    c ∈ label_set store fns := by
  rw [label_set_eq_toFinset]
  exact List.mem_toFinset.mpr
    (List.mem_flatten.mpr ⟨(store.read_rects f).2, List.mem_map_of_mem _ hf, hc⟩)

theorem lookup_get_labels_isSome {store : AnnotationStore} {fns : List String}
    {c : String} (hc : c ∈ label_set store fns) :
    (List.lookup c (get_labels_from_filenames store fns)).isSome := by
  apply lookup_isSome_of_mem_keys
  rw [get_labels_keys]
  exact (Finset.mem_sort _).mpr hc

theorem split_tasks_files_mem {name folder : String}
    {labels : List (String × ℕ)} {number : ℤ} {files : List String}
    {t : ShardTask} (ht : t ∈ split_tasks name folder labels number files) :
    t.labels = labels ∧ t.files ∈ make_record_lists number files := by
  simp only [split_tasks, List.mem_map] at ht
  obtain ⟨p, hp, hq⟩ := ht
  subst hq
  refine ⟨rfl, ?_⟩
  have hm : p.2 ∈ List.map Prod.snd (make_record_lists number files).enum :=
    List.mem_map_of_mem _ hp
  rwa [List.enum_map_snd] at hm

/-- Claim C6 (vocabulary-lookup safety): for every shard task produced by
the task builder, every class name read from any annotation file in the
task's file list is a key of the shared vocabulary (built over the union of
the train and eval lists), so the class-name-to-id lookup performed by the
record encoder never fails. Reading is a function of the file path in this
embedding, which is exactly the claim's precondition that re-reading a file
yields the same class names. -/
theorem C6_vocabulary_lookup_safety (store : AnnotationStore) (number : ℤ)
    (folder : String) (train_filenames eval_filenames : List String) :
    ∀ t ∈ (get_record_writing_tasks store number folder train_filenames
        eval_filenames).1,
      ∀ f ∈ t.files,
        (∀ c ∈ (store.read_rects f).2, (List.lookup c t.labels).isSome)
        ∧ (lookup_all t.labels (store.read_rects f).2).isSome := by
  intro t ht f hf
  have hsplit : t.labels = get_labels_from_filenames store
      (train_filenames ++ eval_filenames) ∧ f ∈ train_filenames ++ eval_filenames := by
    simp only [get_record_writing_tasks, List.mem_append] at ht
    rcases ht with h | h
    · obtain ⟨hl, hmem⟩ := split_tasks_files_mem h
      exact ⟨hl, List.mem_append_left _
        ((make_record_lists_flatten_perm number train_filenames).mem_iff.mp
          (List.mem_flatten.mpr ⟨t.files, hmem, hf⟩))⟩
    · obtain ⟨hl, hmem⟩ := split_tasks_files_mem h
      exact ⟨hl, List.mem_append_right _
        ((make_record_lists_flatten_perm number eval_filenames).mem_iff.mp
          (List.mem_flatten.mpr ⟨t.files, hmem, hf⟩))⟩
  obtain ⟨hlab, hmem⟩ := hsplit
  have hin : ∀ c ∈ (store.read_rects f).2,
      (List.lookup c (get_labels_from_filenames store
        (train_filenames ++ eval_filenames))).isSome := by
    intro c hc
    exact lookup_get_labels_isSome (mem_label_set_of_read hmem hc)
  constructor
  · intro c hc
    rw [hlab]
    exact hin c hc
  · rw [hlab]
    exact lookup_all_isSome _ _ hin

/-- Concrete instance of C6: the first train task of a run over
`[f1, f3]` with eval `[f2]` carries the shared vocabulary, and the
encoder's lookups for `f1` succeed against it. -/
theorem C6_vocabulary_lookup_safety_witness :
    (⟨"train-00",
        get_labels_from_filenames demo_store (["f1", "f3"] ++ ["f2"]),
        ["f1"], "out/train-00.record"⟩ : ShardTask)
      ∈ (get_record_writing_tasks demo_store 2 "out" ["f1", "f3"] ["f2"]).1
    ∧ (lookup_all (get_labels_from_filenames demo_store (["f1", "f3"] ++ ["f2"]))
        (demo_store.read_rects "f1").2).isSome := by
  have hmem : (⟨"train-00",
        get_labels_from_filenames demo_store (["f1", "f3"] ++ ["f2"]),
        ["f1"], "out/train-00.record"⟩ : ShardTask)
      ∈ (get_record_writing_tasks demo_store 2 "out" ["f1", "f3"] ["f2"]).1 := by
    show _ ∈ split_tasks "train" "out"
        (get_labels_from_filenames demo_store (["f1", "f3"] ++ ["f2"])) 2
        ["f1", "f3"]
      ++ split_tasks "eval" "out"
        (get_labels_from_filenames demo_store (["f1", "f3"] ++ ["f2"])) 2 ["f2"]
    apply List.mem_append_left
    exact List.mem_map.mpr ⟨(0, ["f1"]), by decide, rfl⟩
  refine ⟨hmem, ?_⟩
  exact (C6_vocabulary_lookup_safety demo_store 2 "out" ["f1", "f3"] ["f2"]
    _ hmem "f1" (by decide)).2

theorem write_record_loop_error_of (store : AnnotationStore)
    (labels : List (String × ℕ)) (f : String) (post : List String)
    (hf : create_tf_example store labels f = none) :
    ∀ (pre : List String) (written : List TFExample) (cnt : Multiset String)
      (neg : ℕ), (∀ g ∈ pre, (create_tf_example store labels g).isSome) →
      write_record_loop store labels (pre ++ f :: post) written cnt neg
        = .error f := by
  intro pre
  induction pre with
  | nil =>
    intro written cnt neg _
    simp only [List.nil_append, write_record_loop, hf]
  | cons g rest ih =>
    intro written cnt neg hpre
    have hg := hpre g (List.mem_cons_self g rest)
    rw [List.cons_append]
    simp only [write_record_loop]
    cases hcg : create_tf_example store labels g with
    | none =>
      rw [hcg] at hg
      simp at hg
    | some r =>
      obtain ⟨ex, c2, isneg⟩ := r
      exact ih _ _ _ (fun d hd => hpre d (List.mem_cons_of_mem g hd))

theorem write_record_loop_ok_of (store : AnnotationStore)
    (labels : List (String × ℕ)) :
    ∀ (data : List String) (written : List TFExample) (cnt : Multiset String)
      (neg : ℕ), (∀ g ∈ data, (create_tf_example store labels g).isSome) →
      ∃ out, write_record_loop store labels data written cnt neg = .ok out := by
  intro data
  induction data with
  | nil =>
    intro written cnt neg _
    exact ⟨(written, cnt, neg), rfl⟩
  | cons g rest ih =>
    intro written cnt neg h
    have hg := h g (List.mem_cons_self g rest)
    cases hcg : create_tf_example store labels g with
    | none =>
      rw [hcg] at hg
      simp at hg
    | some r =>
      obtain ⟨ex, c2, isneg⟩ := r
      obtain ⟨out, hout⟩ := ih (written ++ [ex]) (cnt + c2)
        (neg + if isneg then 1 else 0) (fun d hd => h d (List.mem_cons_of_mem g hd))
      refine ⟨out, ?_⟩
      simp only [write_record_loop, hcg]
      exact hout

theorem write_record_loop_ok_forall (store : AnnotationStore)
    (labels : List (String × ℕ)) :
    ∀ (data : List String) (written : List TFExample) (cnt : Multiset String)
      (neg : ℕ) (out : List TFExample × Multiset String × ℕ),
      write_record_loop store labels data written cnt neg = .ok out →
      ∀ g ∈ data, (create_tf_example store labels g).isSome := by
  intro data
  induction data with
  | nil =>
    intro written cnt neg out _ g hg
    simp at hg
  | cons f rest ih =>
    intro written cnt neg out h g hg
    simp only [write_record_loop] at h
    cases hc : create_tf_example store labels f with
    | none =>
      exfalso
      rw [hc] at h
      simp at h
    | some r =>
      obtain ⟨ex, c2, isneg⟩ := r
      rw [hc] at h
      have h1 : write_record_loop store labels rest (written ++ [ex]) (cnt + c2)
          (neg + if isneg then 1 else 0) = .ok out := h
      rcases List.mem_cons.mp hg with hg1 | hg2
      · subst hg1
        rw [hc]
        rfl
      · exact ih _ _ _ _ h1 g hg2

theorem write_record_from_list_ok_iff (store : AnnotationStore) (id : String)
    (labels : List (String × ℕ)) (data : List String) :
    (∃ out, write_record_from_list store id labels data = .ok out)
      ↔ ∀ g ∈ data, (create_tf_example store labels g).isSome := by
  constructor
  · rintro ⟨out, hout⟩
    revert hout
    simp only [write_record_from_list]
    cases hloop : write_record_loop store labels data [] 0 0 with
    | error e =>
      intro h
      cases h
    | ok o =>
      intro _
      exact write_record_loop_ok_forall store labels data [] 0 0 o hloop
  · intro hall
    obtain ⟨⟨w, c, n⟩, hout⟩ := write_record_loop_ok_of store labels data [] 0 0 hall
    exact ⟨(w, ⟨id, data.length, c, n⟩), by simp only [write_record_from_list, hout]⟩

theorem write_record_from_list_error (store : AnnotationStore) (id : String)
    (labels : List (String × ℕ)) {pre post : List String} {f : String}
    (hpre : ∀ g ∈ pre, (create_tf_example store labels g).isSome)
    (hf : create_tf_example store labels f = none) :
    write_record_from_list store id labels (pre ++ f :: post) = .error f := by
  simp only [write_record_from_list,
    write_record_loop_error_of store labels f post hf pre [] 0 0 hpre]

theorem map_except_ok_iff (f : α → Except ε β) :
    ∀ (l : List α), (∃ out, map_except f l = .ok out) ↔ ∀ a ∈ l, ∃ b, f a = .ok b := by
  intro l
  induction l with
  | nil =>
    constructor
    · intro _ a ha
      simp at ha
    · intro _
      exact ⟨[], rfl⟩
  | cons a rest ih =>
    constructor
    · rintro ⟨out, hout⟩ b hb
      simp only [map_except] at hout
      cases hfa : f a with
      | error e =>
        exfalso
        rw [hfa] at hout
        simp at hout
      | ok v =>
        rw [hfa] at hout
        rcases List.mem_cons.mp hb with hb1 | hb2
        · subst hb1
          exact ⟨v, hfa⟩
        · cases hrest : map_except f rest with
          | error e =>
            exfalso
            rw [hrest] at hout
            simp at hout
          | ok vs => exact (ih.mp ⟨vs, hrest⟩) b hb2
    · intro hall
      obtain ⟨v, hv⟩ := hall a (List.mem_cons_self a rest)
      obtain ⟨vs, hvs⟩ := ih.mpr (fun d hd => hall d (List.mem_cons_of_mem a hd))
      exact ⟨v :: vs, by simp only [map_except, hv, hvs]⟩

/-- Claim C7 (fail-fast and manifest ordering): a shard writer hitting an
encoding failure stops at the failing file with an error (it does not skip
and continue); any such failure in any task makes the whole run return an
error, so no manifest value is produced; and when the run does return a
manifest, it is the label-map text and every file of every shard task
encoded successfully. -/
theorem C7_fail_fast (store : AnnotationStore) (id : String)
    (labels : List (String × ℕ)) (pre post : List String) (f : String)
    (number : ℤ) (folder : String)
    (train_filenames eval_filenames : List String) :
    ((∀ g ∈ pre, (create_tf_example store labels g).isSome) →
      create_tf_example store labels f = none →
      write_record_from_list store id labels (pre ++ f :: post) = .error f)
    ∧ ((∃ t ∈ (get_record_writing_tasks store number folder train_filenames
          eval_filenames).1, ∃ g ∈ t.files,
            create_tf_example store t.labels g = none) →
        ∃ e, run_conversion store number folder train_filenames eval_filenames
          = .error e)
    ∧ (∀ results manifest,
        run_conversion store number folder train_filenames eval_filenames
            = .ok (results, manifest) →
        manifest = write_labels (get_record_writing_tasks store number folder
          train_filenames eval_filenames).2
        ∧ ∀ t ∈ (get_record_writing_tasks store number folder train_filenames
            eval_filenames).1, ∀ g ∈ t.files,
              (create_tf_example store t.labels g).isSome) := by
  refine ⟨?_, ?_, ?_⟩
  · intro hpre hf
    exact write_record_from_list_error store id labels hpre hf
  · rintro ⟨t, ht, g, hg, hnone⟩
    cases hm : map_except (fun t =>
        (write_record_from_list store t.id t.labels t.files).map Prod.snd)
        (get_record_writing_tasks store number folder train_filenames
          eval_filenames).1 with
    | error e =>
      refine ⟨e, ?_⟩
      simp only [run_conversion, hm]
    | ok results =>
      exfalso
      have hall := (map_except_ok_iff _ _).mp ⟨results, hm⟩
      obtain ⟨b, hb⟩ := hall t ht
      cases hw : write_record_from_list store t.id t.labels t.files with
      | error e =>
        rw [hw] at hb
        simp [Except.map] at hb
      | ok out =>
        have hsome := ((write_record_from_list_ok_iff store t.id t.labels
          t.files).mp ⟨out, hw⟩) g hg
        rw [hnone] at hsome
        simp at hsome
  · intro results manifest h
    revert h
    simp only [run_conversion]
    cases hm : map_except (fun t =>
        (write_record_from_list store t.id t.labels t.files).map Prod.snd)
        (get_record_writing_tasks store number folder train_filenames
          eval_filenames).1 with
    | error e =>
      intro h
      cases h
    | ok rs =>
      intro h
      injection h with h1
      constructor
      · exact (congrArg Prod.snd h1).symm
      · intro t ht g hg
        have hall := (map_except_ok_iff _ _).mp ⟨rs, hm⟩
        obtain ⟨b, hb⟩ := hall t ht
        cases hw : write_record_from_list store t.id t.labels t.files with
        | error e =>
          exfalso
          rw [hw] at hb
          simp [Except.map] at hb
        | ok out =>
          exact ((write_record_from_list_ok_iff store t.id t.labels
            t.files).mp ⟨out, hw⟩) g hg

/-- Concrete instance of C7: with the image paired to `f1` unreadable, the
encoder fails on `f1`, the shard writer holding `[f1]` aborts with that
error, and the whole run over train `[f1]` returns an error (hence no
manifest). -/
theorem C7_fail_fast_witness :
    create_tf_example demo_store_broken
        (get_labels_from_filenames demo_store_broken (["f1"] ++ [])) "f1" = none
    ∧ write_record_from_list demo_store_broken "train-00"
        (get_labels_from_filenames demo_store_broken (["f1"] ++ []))
        ([] ++ "f1" :: []) = .error "f1"
    ∧ ∃ e, run_conversion demo_store_broken 2 "out" ["f1"] [] = .error e := by
  have hnone : create_tf_example demo_store_broken
      (get_labels_from_filenames demo_store_broken (["f1"] ++ [])) "f1"
        = none := by decide
  have hmem : (⟨"train-00",
      get_labels_from_filenames demo_store_broken (["f1"] ++ []),
      ["f1"], "out/train-00.record"⟩ : ShardTask)
      ∈ (get_record_writing_tasks demo_store_broken 2 "out" ["f1"] []).1 := by
    show _ ∈ split_tasks "train" "out"
        (get_labels_from_filenames demo_store_broken (["f1"] ++ [])) 2 ["f1"]
      ++ split_tasks "eval" "out"
        (get_labels_from_filenames demo_store_broken (["f1"] ++ [])) 2 []
    apply List.mem_append_left
    exact List.mem_map.mpr ⟨(0, ["f1"]), by decide, rfl⟩
  refine ⟨hnone, ?_, ?_⟩
  · exact (C7_fail_fast demo_store_broken "train-00"
      (get_labels_from_filenames demo_store_broken (["f1"] ++ [])) [] [] "f1"
      2 "out" ["f1"] []).1 (by simp) hnone
  · exact (C7_fail_fast demo_store_broken "train-00"
      (get_labels_from_filenames demo_store_broken (["f1"] ++ [])) [] [] "f1"
      2 "out" ["f1"] []).2.1
      ⟨⟨"train-00", get_labels_from_filenames demo_store_broken (["f1"] ++ []),
        ["f1"], "out/train-00.record"⟩, hmem, "f1", by decide, hnone⟩

/-- Claim C8 (label manifest format): the manifest text is exactly one
`item` block per class in sorted-vocabulary order, blocks joined by a
newline (each block already ends in one, so consecutive blocks are
separated by a blank line), where the block of the class at sorted position
`i` carries id `i + 1`; the ids stored in the vocabulary written out are
exactly `1..K`. -/
theorem C8_label_manifest (store : AnnotationStore) (fns : List String) :
    write_labels (get_labels_from_filenames store fns)
        = String.intercalate "\n"
          ((((label_set store fns).sort (· ≤ ·)).enum).map
            (fun p => label_item_block (p.1 + 1) p.2))
    ∧ (get_labels_from_filenames store fns).map (fun p => p.2 + 1)
        = (List.range ((label_set store fns).card)).map (fun i => i + 1) := by
  constructor
  · rw [write_labels, get_labels_from_filenames, List.map_map]
    rfl
  · calc (get_labels_from_filenames store fns).map (fun p => p.2 + 1)
        = ((get_labels_from_filenames store fns).map Prod.snd).map
            (fun i => i + 1) := by rw [List.map_map]; rfl
      _ = (List.range ((label_set store fns).card)).map (fun i => i + 1) := by
          rw [get_labels_ids]

/-- Claim C5 is refuted by this theorem: `os.walk` with its default
`onerror=None` swallows the error raised when the root folder is unreadable
and yields no `(root, dirs, files)` triple at all, so
`get_shuffled_filenames` on an unreadable root returns normally with the
empty file list — it is a total function with no error outcome — instead of
failing. The run is not stopped. -/
theorem C5_unreadable_folder_counterexample :
    get_shuffled_filenames [] id = [] := rfl

/-- Amended C5: an unreadable root folder is silently treated as containing
zero annotation files (discovery returns the empty list, with no error
signalled), and the run proceeds to completion, producing zero shard tasks
and an empty label manifest rather than failing. -/
theorem C5_unreadable_folder_amended :
    get_shuffled_filenames [] id = []
    ∧ run_conversion demo_store 10 "out" (get_shuffled_filenames [] id) []
        = .ok ([], "") := by
  refine ⟨rfl, ?_⟩
  have h1 : get_labels_from_filenames demo_store ([] : List String) = [] := by
    simp [get_labels_from_filenames, label_set]
  show run_conversion demo_store 10 "out" [] [] = .ok ([], "")
  simp [run_conversion, get_record_writing_tasks, split_tasks,
    make_record_lists, effective_count, distribute_loop, map_except,
    write_labels, h1, String.intercalate]

end ConvertRecords
